import Mathlib

/-!
Verification of the segmentation-and-field-extraction pipeline of the
PDF quiz parser (`src/backend/main.py`).

The Python code is shallowly embedded: each extraction routine is translated
into an executable Lean function over `List Char` / `String`.  The regular
expressions of the source are hand-compiled into character-list scanners that
reproduce Python `re` semantics (leftmost match, greedy/lazy quantifiers,
`IGNORECASE` where the source passes that flag, `DOTALL` where passed) for the
specific patterns appearing in the source.  Helper scanners that iterate
(`re.finditer` / `re.sub`) use an explicit fuel argument bounded by the input
length, mirroring the fact that every pattern of the source consumes at least
one character per match.
-/

/-- Python `\s` on ASCII text: the whitespace class used by the `re` patterns
of the source. -/
def isPyWs (c : Char) : Bool :=
  c = ' ' || c = '\t' || c = '\n' || c = '\r' || c = '\x0b' || c = '\x0c'

/-- The character class `[A-F]` (case sensitive), as used by patterns compiled
without `re.IGNORECASE` (e.g. `PDFTextCleaner.extract_options`). -/
def isLetterAF (c : Char) : Bool :=
  'A' ≤ c && c ≤ 'F'

/-- The character class `[A-F]` under `re.IGNORECASE`: it also matches the
lowercase letters `a`-`f`. -/
def isLetterAFci (c : Char) : Bool :=
  isLetterAF c || ('a' ≤ c && c ≤ 'f')

/-- Match a literal, case sensitively; returns the rest of the input on
success. -/
def dropLit : List Char → List Char → Option (List Char)
  | [], cs => some cs
  | _ :: _, [] => none
  | l :: ls, c :: cs => if c = l then dropLit ls cs else none

/-- Match a literal under `re.IGNORECASE`; returns the rest of the input on
success. -/
def dropLitCI : List Char → List Char → Option (List Char)
  | [], cs => some cs
  | _ :: _, [] => none
  | l :: ls, c :: cs => if c.toLower = l.toLower then dropLitCI ls cs else none

/-- Lazy scan `(.*?)` (with `re.DOTALL`) up to a lookahead: consume characters
one at a time until the stop predicate holds on the remaining input (this is
the position where the lookahead matches) or the input ends (`\Z`).  Returns
the consumed prefix (the captured group) and the remaining input. -/
def takeUntil (stop : List Char → Bool) : List Char → List Char × List Char
  | [] => ([], [])
  | c :: cs =>
    if stop (c :: cs) then ([], c :: cs)
    else
      let r := takeUntil stop cs
      (c :: r.1, r.2)

/-- Embedding of `re.search` for a pattern whose matcher at a fixed position is
`m`: try the matcher at every position from the left; on success return the
text before the match, the captured payload, and the text after the match
(Python code removes matches with `text[:m.start()] + text[m.end():]`). -/
def searchSplit (m : List Char → Option (α × List Char)) :
    List Char → Option (List Char × α × List Char)
  | [] =>
    match m [] with
    | some (a, r) => some ([], a, r)
    | none => none
  | c :: cs =>
    match m (c :: cs) with
    | some (a, r) => some ([], a, r)
    | none =>
      match searchSplit m cs with
      | some (p, a, r) => some (c :: p, a, r)
      | none => none

/-- First pattern of a list that has a match anywhere in the input: embeds the
`for pattern in patterns: match = re.search(...); if match: ... break` loops of
`PDFTextCleaner`. -/
def searchFirst (ms : List (List Char → Option (α × List Char))) (cs : List Char) :
    Option (List Char × α × List Char) :=
  match ms with
  | [] => none
  | m :: rest =>
    match searchSplit m cs with
    | some x => some x
    | none => searchFirst rest cs

/-- Embedding of `re.finditer`: repeatedly find the leftmost match, emit its
payload and continue after the match (every source pattern consumes at least
one character, so fuel `length + 1` suffices). -/
def findIter (m : List Char → Option (α × List Char)) : Nat → List Char → List α
  | 0, _ => []
  | _ + 1, [] => []
  | fuel + 1, c :: cs =>
    match m (c :: cs) with
    | some (a, r) => a :: findIter m fuel r
    | none => findIter m fuel cs

/-- Embedding of `re.sub(pattern, rep, text)`: replace every non-overlapping
match (the matcher returns the input remaining after the match) by `rep`. -/
def subAll (m : List Char → Option (List Char)) (rep : List Char) :
    Nat → List Char → List Char
  | 0, cs => cs
  | _ + 1, [] => []
  | fuel + 1, c :: cs =>
    match m (c :: cs) with
    | some r => rep ++ subAll m rep fuel r
    | none => c :: subAll m rep fuel cs

/-- Python `str.strip()` on ASCII text. -/
def pyStrip (cs : List Char) : List Char :=
  ((cs.dropWhile isPyWs).reverse.dropWhile isPyWs).reverse

/-- `str.strip()` lifted to `String`. -/
def pyStripS (s : String) : String :=
  String.mk (pyStrip s.toList)

/-- Python `str.count` for a single character (`text.count("|")` etc. in
`_text_might_have_table`). -/
def countChar (c : Char) (cs : List Char) : Nat :=
  cs.count c

/-- Prefix test on character lists. -/
def isPrefixLC : List Char → List Char → Bool
  | [], _ => true
  | _ :: _, [] => false
  | l :: ls, c :: cs => c = l && isPrefixLC ls cs

/-- Python substring test `needle in hay`. -/
def isSubstr (needle : List Char) : List Char → Bool
  | [] => isPrefixLC needle []
  | c :: cs => isPrefixLC needle (c :: cs) || isSubstr needle cs

/-- Python `str.lower()` on ASCII text. -/
def pyLower (cs : List Char) : List Char :=
  cs.map Char.toLower

/-- Lazy tail `.*?(?=\n|$)` appearing (with `re.DOTALL`) at the end of the
answer patterns: the match extends to just before the first newline, or to the
end of the text.  Returns the remaining input at the match end. -/
def restAtLineEnd (cs : List Char) : List Char :=
  cs.dropWhile (fun c => c ≠ '\n')

/-- Python `int(...)` on a string of decimal digits. -/
def digitsToNat (ds : List Char) : Nat :=
  ds.foldl (fun n c => 10 * n + (c.toNat - 48)) 0

/-- Insertion into a Python `dict` keyed by option letters: replaces the value
of an existing key in place, otherwise appends (insertion order preserved). -/
def dictSet (d : List (Char × String)) (k : Char) (v : String) : List (Char × String) :=
  match d with
  | [] => [(k, v)]
  | (k0, v0) :: rest => if k0 = k then (k, v) :: rest else (k0, v0) :: dictSet rest k v

/-- Python `dict.get(letter, "")` on an option-letter dict. -/
def dictGet (d : List (Char × String)) (k : Char) : String :=
  match d with
  | [] => ""
  | (k0, v0) :: rest => if k0 = k then v0 else dictGet rest k

/-- Join a list of strings with a separator (`"\n".join(lines)` etc.). -/
def joinWith (sep : String) : List String → String
  | [] => ""
  | [s] => s
  | s :: rest => s ++ sep ++ joinWith sep rest

/-- Python `text.split()`: split on runs of whitespace, dropping empty
words. -/
def splitPyWsGo (cur : List Char) : List Char → List (List Char)
  | [] => if cur.isEmpty then [] else [cur.reverse]
  | c :: cs =>
    if isPyWs c then
      if cur.isEmpty then splitPyWsGo [] cs
      else cur.reverse :: splitPyWsGo [] cs
    else splitPyWsGo (c :: cur) cs

/-- Python `text.split()` wrapper. -/
def splitPyWs (cs : List Char) : List (List Char) :=
  splitPyWsGo [] cs

/-- Split a character list at every newline, keeping empty lines (used for the
`re.MULTILINE` page-number pattern of `clean_text`). -/
def splitNl : List Char → List (List Char)
  | [] => [[]]
  | c :: cs =>
    if c = '\n' then [] :: splitNl cs
    else
      match splitNl cs with
      | [] => [[c]]
      | l :: ls => (c :: l) :: ls

/-- Rejoin lines produced by `splitNl`. -/
def joinNl : List (List Char) → List Char
  | [] => []
  | [l] => l
  | l :: ls => l ++ '\n' :: joinNl ls

/-- Greedy `\s+` (at least one whitespace character). -/
def wsPlus (cs : List Char) : Option (List Char) :=
  let r := cs.span isPyWs
  if r.1.isEmpty then none else some r.2

/-- Greedy `[:\s]+` (at least one colon-or-whitespace character), as in
`Correct answer[:\s]+` / `Explanation[:\s]+` etc. -/
def colonWsPlus (cs : List Char) : Option (List Char) :=
  let r := cs.span (fun c => c = ':' || isPyWs c)
  if r.1.isEmpty then none else some r.2

/-- Greedy optional `\.?`. -/
def dropOptDot (cs : List Char) : List Char :=
  match cs with
  | '.' :: r => r
  | _ => cs

/-!
`PDFTextCleaner.extract_correct_answer`: the six patterns of the source,
searched in order under `re.IGNORECASE | re.DOTALL`.  Each matcher returns the
captured letter (uppercased, as `match.group(1).upper()`) and the input
remaining after the match.
-/

/-- Pattern `The correct answer is\s*([A-F])\..*?(?=\n|$)`. -/
def matchAns1 (cs : List Char) : Option (Char × List Char) :=
  match dropLitCI "the correct answer is".toList cs with
  | none => none
  | some cs1 =>
    match cs1.dropWhile isPyWs with
    | l :: '.' :: cs3 =>
      if isLetterAFci l then some (l.toUpper, restAtLineEnd cs3) else none
    | _ => none

/-- Pattern `Correct answer[:\s]+([A-F])\.?.*?(?=\n|$)`. -/
def matchAns2 (cs : List Char) : Option (Char × List Char) :=
  match dropLitCI "correct answer".toList cs with
  | none => none
  | some cs1 =>
    match colonWsPlus cs1 with
    | none => none
    | some cs2 =>
      match cs2 with
      | l :: cs3 =>
        if isLetterAFci l then some (l.toUpper, restAtLineEnd (dropOptDot cs3)) else none
      | [] => none

/-- Pattern `The answer is\s*([A-F])\.?.*?(?=\n|$)`. -/
def matchAns3 (cs : List Char) : Option (Char × List Char) :=
  match dropLitCI "the answer is".toList cs with
  | none => none
  | some cs1 =>
    match cs1.dropWhile isPyWs with
    | l :: cs3 =>
      if isLetterAFci l then some (l.toUpper, restAtLineEnd (dropOptDot cs3)) else none
    | [] => none

/-- Pattern `Answer[:\s]+([A-F])\.?.*?(?=\n|$)`. -/
def matchAns4 (cs : List Char) : Option (Char × List Char) :=
  match dropLitCI "answer".toList cs with
  | none => none
  | some cs1 =>
    match colonWsPlus cs1 with
    | none => none
    | some cs2 =>
      match cs2 with
      | l :: cs3 =>
        if isLetterAFci l then some (l.toUpper, restAtLineEnd (dropOptDot cs3)) else none
      | [] => none

/-- Pattern `The correct choice is\s*([A-F])\.?.*?(?=\n|$)`. -/
def matchAns5 (cs : List Char) : Option (Char × List Char) :=
  match dropLitCI "the correct choice is".toList cs with
  | none => none
  | some cs1 =>
    match cs1.dropWhile isPyWs with
    | l :: cs3 =>
      if isLetterAFci l then some (l.toUpper, restAtLineEnd (dropOptDot cs3)) else none
    | [] => none

/-- Pattern `([A-F])\s+is\s+(?:the\s+)?correct\s+(?:answer|option|choice)`. -/
def matchAns6 (cs : List Char) : Option (Char × List Char) :=
  match cs with
  | [] => none
  | l :: cs1 =>
    if isLetterAFci l then
      match wsPlus cs1 with
      | none => none
      | some cs2 =>
        match dropLitCI "is".toList cs2 with
        | none => none
        | some cs3 =>
          match wsPlus cs3 with
          | none => none
          | some cs4 =>
            match ((do
                let t1 ← dropLitCI "the".toList cs4
                let t2 ← wsPlus t1
                dropLitCI "correct".toList t2) <|> dropLitCI "correct".toList cs4) with
            | none => none
            | some cs6 =>
              match wsPlus cs6 with
              | none => none
              | some cs7 =>
                match (dropLitCI "answer".toList cs7 <|> dropLitCI "option".toList cs7
                    <|> dropLitCI "choice".toList cs7) with
                | none => none
                | some cs8 => some (l.toUpper, cs8)
    else none

/-- The pattern list of `extract_correct_answer`, in source order. -/
def answerMatchers : List (List Char → Option (Char × List Char)) :=
  [matchAns1, matchAns2, matchAns3, matchAns4, matchAns5, matchAns6]

/-- Embedding of `PDFTextCleaner.extract_correct_answer`: the first pattern
with a match wins; the match is excised from the text
(`text[:match.start()] + text[match.end():]`), the letter is uppercased. -/
def extract_correct_answer (text : String) : String × Option Char :=
  match searchFirst answerMatchers text.toList with
  | some (before, l, after) => (String.mk (before ++ after), some l)
  | none => (text, none)

/-!
`PDFTextCleaner.extract_things_to_remember` and
`PDFTextCleaner.extract_explanation`: section patterns under
`re.IGNORECASE | re.DOTALL`.
-/

/-- Lookahead `(?=\n\n|\Z)` of the section patterns. -/
def stopBlankLine (cs : List Char) : Bool :=
  match cs with
  | '\n' :: '\n' :: _ => true
  | _ => false

/-- Shared shape `LITERAL[:\s]+(.*?)(?=\n\n|\Z)`: returns the captured group
and the remaining input. -/
def matchSection (lit : List Char) (cs : List Char) : Option (List Char × List Char) :=
  match dropLitCI lit cs with
  | none => none
  | some cs1 =>
    match colonWsPlus cs1 with
    | none => none
    | some cs2 =>
      let r := takeUntil stopBlankLine cs2
      some (r.1, r.2)

/-- Backtracking for pattern `Things to Remember[:\s]*\n(.+)$`: the greedy
`[:\s]*` prefers the latest newline of the colon-whitespace run such that the
`(.+)` group (everything to the end of the text, under `re.DOTALL`) is
non-empty. -/
def lastNlCapture (run rest0 : List Char) : Option (List Char) :=
  match run with
  | [] => none
  | c :: cs =>
    match lastNlCapture cs rest0 with
    | some cap => some cap
    | none =>
      if c = '\n' && !(cs ++ rest0).isEmpty then some (cs ++ rest0) else none

/-- Pattern `Things to Remember[:\s]*\n(.+)$`: the match extends to the end of
the text, so nothing remains after it. -/
def matchThings1 (cs : List Char) : Option (List Char × List Char) :=
  match dropLitCI "things to remember".toList cs with
  | none => none
  | some cs1 =>
    let run := cs1.takeWhile (fun c => c = ':' || isPyWs c)
    let rest0 := cs1.drop run.length
    match lastNlCapture run rest0 with
    | some cap => some (cap, [])
    | none => none

/-- The pattern list of `extract_things_to_remember`, in source order. -/
def thingsMatchers : List (List Char → Option (List Char × List Char)) :=
  [matchThings1, matchSection "things to remember".toList,
   matchSection "remember".toList, matchSection "note".toList,
   matchSection "important".toList]

/-- Embedding of `PDFTextCleaner.extract_things_to_remember`. -/
def extract_things_to_remember (text : String) : String × String :=
  match searchFirst thingsMatchers text.toList with
  | some (before, cap, after) => (String.mk (before ++ after), String.mk (pyStrip cap))
  | none => (text, "")

/-- The pattern list of `extract_explanation`, in source order. -/
def explanationMatchers : List (List Char → Option (List Char × List Char)) :=
  [matchSection "explanation".toList, matchSection "therefore".toList,
   matchSection "thus".toList]

/-- Embedding of `PDFTextCleaner.extract_explanation`. -/
def extract_explanation (text : String) : String × String :=
  match searchFirst explanationMatchers text.toList with
  | some (before, cap, after) => (String.mk (before ++ after), String.mk (pyStrip cap))
  | none => (text, "")

/-!
`PDFTextCleaner.clean_text`: copyright removal, page-number removal,
whitespace normalisation.
-/

/-- Exactly four decimal digits (`\d{4}`). -/
def dropDigits4 (cs : List Char) : Option (List Char) :=
  match cs with
  | a :: b :: c :: d :: r =>
    if a.isDigit && b.isDigit && c.isDigit && d.isDigit then some r else none
  | _ => none

/-- Matcher for the copyright pattern
`(?:©|Copyright\s*©?)\s*\d{4}(?:-\d{4})?\s*[A-Za-z0-9]+(?:Prep)?\.?.*?(?=\n|$)`
under `re.IGNORECASE` (no `DOTALL`: the lazy tail stops at the first newline).
Returns the input remaining after the match. -/
def matchCopyright (cs : List Char) : Option (List Char) :=
  match (dropLit ['©'] cs <|> (do
      let t1 ← dropLitCI "copyright".toList cs
      let t2 := t1.dropWhile isPyWs
      some (match dropLit ['©'] t2 with | some r => r | none => t2))) with
  | none => none
  | some cs1 =>
    let cs2 := cs1.dropWhile isPyWs
    match dropDigits4 cs2 with
    | none => none
    | some cs3 =>
      let cs4 := match cs3 with
        | '-' :: r =>
          match dropDigits4 r with
          | some r2 => r2
          | none => cs3
        | _ => cs3
      let cs5 := cs4.dropWhile isPyWs
      let r := cs5.span (fun c => c.isAlphanum)
      if r.1.isEmpty then none
      else
        let cs7 := match dropLitCI "prep".toList r.2 with | some t => t | none => r.2
        some (restAtLineEnd (dropOptDot cs7))

/-- Suffix of the input after its last newline, when it contains one: the
backtracking of the greedy trailing `\s*` in `\n\s*\d+\s*\n` (the final `\n`
of the pattern must land on the last newline of the whitespace run). -/
def splitAfterLastNl : List Char → Option (List Char)
  | [] => none
  | c :: cs =>
    match splitAfterLastNl cs with
    | some s => some s
    | none => if c = '\n' then some cs else none

/-- Matcher for the page-number pattern `\n\s*\d+\s*\n` (replaced by a single
newline). -/
def matchPageNumberNl (cs : List Char) : Option (List Char) :=
  match cs with
  | '\n' :: cs1 =>
    let r1 := cs1.span isPyWs
    let r2 := r1.2.span Char.isDigit
    if r2.1.isEmpty then none
    else
      let r3 := r2.2.span isPyWs
      match splitAfterLastNl r3.1 with
      | some suffix => some (suffix ++ r3.2)
      | none => none
  | _ => none

/-- A whole line matching `^[ \t]*\d+[ \t]*$` under `re.MULTILINE` (the
standalone page-number lines removed by `clean_text`). -/
def isPageNumberLine (l : List Char) : Bool :=
  let r1 := l.dropWhile (fun c => c = ' ' || c = '\t')
  let r2 := r1.span Char.isDigit
  !r2.1.isEmpty && r2.2.all (fun c => c = ' ' || c = '\t')

/-- Collapse runs of a repeated character to a single occurrence
(`re.sub(r' +', ' ', ...)` and `re.sub(r'\n+', '\n', ...)`). -/
def collapseRuns (target : Char) : List Char → List Char
  | [] => []
  | [c] => [c]
  | c1 :: c2 :: rest =>
    if c1 = target && c2 = target then collapseRuns target (c2 :: rest)
    else c1 :: collapseRuns target (c2 :: rest)

/-- Embedding of `PDFTextCleaner.clean_text`. -/
def clean_text (text : String) : String :=
  let cs0 := text.toList
  let cs1 := subAll matchCopyright [] (cs0.length + 1) cs0
  let cs2 := subAll matchPageNumberNl ['\n'] (cs1.length + 1) cs1
  let cs3 := joinNl ((splitNl cs2).map (fun l => if isPageNumberLine l then [] else l))
  let cs4 := collapseRuns ' ' cs3
  let cs5 := collapseRuns '\n' cs4
  String.mk (pyStrip cs5)

/-!
`PDFTextCleaner.extract_options`: three option patterns under `re.DOTALL`
(case sensitive), tried in order, accumulating into one dict and stopping as
soon as at least two options have been collected.
-/

/-- Lookahead `\n\s*[A-F][\.\)]` (start of the next option on a new line). -/
def lookNlMarker (cs : List Char) : Bool :=
  match cs with
  | '\n' :: cs1 =>
    match cs1.dropWhile isPyWs with
    | l :: s :: _ => isLetterAF l && (s = '.' || s = ')')
    | _ => false
  | _ => false

/-- Lookahead `\s+[A-F][\.\)]` (start of the next option after whitespace). -/
def lookWsMarker (cs : List Char) : Bool :=
  let r := cs.span isPyWs
  if r.1.isEmpty then false
  else
    match r.2 with
    | l :: s :: _ => isLetterAF l && (s = '.' || s = ')')
    | _ => false

/-- Matcher for option pattern
`\n\s*([A-F])[\.\)]\s+(.*?)(?=\n\s*[A-F][\.\)]|\Z)`: returns the captured
letter and option text, and the input remaining after the match. -/
def matchOptA (cs : List Char) : Option ((Char × List Char) × List Char) :=
  match cs with
  | '\n' :: cs1 =>
    match cs1.dropWhile isPyWs with
    | l :: s :: cs2 =>
      if isLetterAF l && (s = '.' || s = ')') then
        match wsPlus cs2 with
        | none => none
        | some cs3 =>
          let r := takeUntil lookNlMarker cs3
          some ((l, r.1), r.2)
      else none
    | _ => none
  | _ => none

/-- Matcher for option pattern
`([A-F])[\.\)]\s+(.*?)(?=\s+[A-F][\.\)]|\Z)`. -/
def matchOptB (cs : List Char) : Option ((Char × List Char) × List Char) :=
  match cs with
  | l :: s :: cs2 =>
    if isLetterAF l && (s = '.' || s = ')') then
      match wsPlus cs2 with
      | none => none
      | some cs3 =>
        let r := takeUntil lookWsMarker cs3
        some ((l, r.1), r.2)
    else none
  | _ => none

/-- Matcher for option pattern
`([A-F])[\.\)]\s+(.*?)(?=\s+[A-F][\.\)]|\n\s*[A-F][\.\)]|\Z)`. -/
def matchOptC (cs : List Char) : Option ((Char × List Char) × List Char) :=
  match cs with
  | l :: s :: cs2 =>
    if isLetterAF l && (s = '.' || s = ')') then
      match wsPlus cs2 with
      | none => none
      | some cs3 =>
        let r := takeUntil (fun u => lookWsMarker u || lookNlMarker u) cs3
        some ((l, r.1), r.2)
    else none
  | _ => none

/-- Matcher for the option-text cleaning pattern
`(?:is correct|correct answer|is incorrect).*` under `re.IGNORECASE` (no
`DOTALL`: the greedy `.*` stops at the first newline or the end). -/
def matchCorrectFragment (cs : List Char) : Option (List Char) :=
  match (dropLitCI "is correct".toList cs <|> dropLitCI "correct answer".toList cs
      <|> dropLitCI "is incorrect".toList cs) with
  | some r => some (restAtLineEnd r)
  | none => none

/-- Cleaning applied to a captured option text before the emptiness check:
`match.group(2).strip()` then the fragment-removing `re.sub`. -/
def cleanOptionPre (cap : List Char) : List Char :=
  let t := pyStrip cap
  subAll matchCorrectFragment [] (t.length + 1) t

/-- The full cleaning of an option text as stored in the dict: strip, remove
any trailing `is correct`/`correct answer`/`is incorrect` fragment, strip
again. -/
def clean_option (t : String) : String :=
  String.mk (pyStrip (cleanOptionPre t.toList))

/-- Store one option match into the dict: skipped when the cleaned text is
empty (`if option_text:`), otherwise inserted under the uppercased letter with
a final strip. -/
def storeOption (d : List (Char × String)) (m : Char × List Char) : List (Char × String) :=
  let t := cleanOptionPre m.2
  if t.isEmpty then d
  else dictSet d m.1.toUpper (String.mk (pyStrip t))

/-- Embedding of `PDFTextCleaner.extract_options`. -/
def extract_options (text : String) : List (Char × String) :=
  let cs := text.toList
  let d1 := (findIter matchOptA (cs.length + 1) cs).foldl storeOption []
  if 2 ≤ d1.length then d1
  else
    let d2 := (findIter matchOptB (cs.length + 1) cs).foldl storeOption d1
    if 2 ≤ d2.length then d2
    else (findIter matchOptC (cs.length + 1) cs).foldl storeOption d2

/-!
`PDFTextCleaner.extract_option_explanations`: three patterns under
`re.IGNORECASE | re.DOTALL`; all of them run (no break), accumulating into one
dict.
-/

/-- Stop position for a `$` lookahead alternative (no `re.MULTILINE`): the end
of the text, or just before a single final newline. -/
def atDollar (cs : List Char) : Bool :=
  match cs with
  | [] => true
  | ['\n'] => true
  | _ => false

/-- Optional punctuation then whitespace, `[\.:]?\s+`, with backtracking over
the optional character. -/
def optPunctWsPlus (cs : List Char) : Option (List Char) :=
  match cs with
  | [] => none
  | c :: rest =>
    if c = '.' || c = ':' then
      match wsPlus rest with
      | some r => some r
      | none => wsPlus cs
    else wsPlus cs

/-- Lookahead `[A-F]\s+is\s+(?:correct|incorrect)` (case insensitive). -/
def lookLetterIsCorrect (cs : List Char) : Bool :=
  match cs with
  | [] => false
  | l :: cs1 =>
    isLetterAFci l &&
      (match wsPlus cs1 with
       | none => false
       | some cs2 =>
         match dropLitCI "is".toList cs2 with
         | none => false
         | some cs3 =>
           match wsPlus cs3 with
           | none => false
           | some cs4 =>
             (dropLitCI "correct".toList cs4).isSome ||
               (dropLitCI "incorrect".toList cs4).isSome)

/-- Lookahead `Option\s+[A-F]` (case insensitive). -/
def lookOptionLetter (cs : List Char) : Bool :=
  match dropLitCI "option".toList cs with
  | none => false
  | some cs1 =>
    match wsPlus cs1 with
    | none => false
    | some cs2 =>
      match cs2 with
      | l :: _ => isLetterAFci l
      | [] => false

/-- Lookahead `[A-F]\s+is` (case insensitive). -/
def lookLetterIs (cs : List Char) : Bool :=
  match cs with
  | [] => false
  | l :: cs1 =>
    isLetterAFci l &&
      (match wsPlus cs1 with
       | none => false
       | some cs2 => (dropLitCI "is".toList cs2).isSome)

/-- Matcher for option-explanation pattern
`([A-F])\s+is\s+(?:correct|incorrect)[\.:]?\s+(.*?)(?=(?:[A-F]\s+is\s+(?:correct|incorrect))|$)`. -/
def matchOptExpl1 (cs : List Char) : Option ((Char × List Char) × List Char) :=
  match cs with
  | [] => none
  | l :: cs1 =>
    if isLetterAFci l then
      match wsPlus cs1 with
      | none => none
      | some cs2 =>
        match dropLitCI "is".toList cs2 with
        | none => none
        | some cs3 =>
          match wsPlus cs3 with
          | none => none
          | some cs4 =>
            match (dropLitCI "correct".toList cs4 <|> dropLitCI "incorrect".toList cs4) with
            | none => none
            | some cs5 =>
              match optPunctWsPlus cs5 with
              | none => none
              | some cs6 =>
                let r := takeUntil (fun u => lookLetterIsCorrect u || atDollar u) cs6
                some ((l.toUpper, r.1), r.2)
    else none

/-- Matcher for option-explanation pattern
`Option\s+([A-F])[:\.\)]\s+(.*?)(?=(?:Option\s+[A-F])|$)`. -/
def matchOptExpl2 (cs : List Char) : Option ((Char × List Char) × List Char) :=
  match dropLitCI "option".toList cs with
  | none => none
  | some cs1 =>
    match wsPlus cs1 with
    | none => none
    | some cs2 =>
      match cs2 with
      | l :: p :: cs3 =>
        if isLetterAFci l && (p = ':' || p = '.' || p = ')') then
          match wsPlus cs3 with
          | none => none
          | some cs4 =>
            let r := takeUntil (fun u => lookOptionLetter u || atDollar u) cs4
            some ((l.toUpper, r.1), r.2)
        else none
      | _ => none

/-- Matcher for option-explanation pattern
`([A-F])\s+is\s+(?:the\s+)?(?:correct|incorrect)\s+(?:choice|option|answer)[\.:]?\s+(.*?)(?=(?:[A-F]\s+is)|$)`. -/
def matchOptExpl3 (cs : List Char) : Option ((Char × List Char) × List Char) :=
  match cs with
  | [] => none
  | l :: cs1 =>
    if isLetterAFci l then
      match wsPlus cs1 with
      | none => none
      | some cs2 =>
        match dropLitCI "is".toList cs2 with
        | none => none
        | some cs3 =>
          match wsPlus cs3 with
          | none => none
          | some cs4 =>
            match ((do
                let t1 ← dropLitCI "the".toList cs4
                wsPlus t1) <|> some cs4) with
            | none => none
            | some cs5 =>
              match (dropLitCI "correct".toList cs5 <|> dropLitCI "incorrect".toList cs5) with
              | none => none
              | some cs6 =>
                match wsPlus cs6 with
                | none => none
                | some cs7 =>
                  match (dropLitCI "choice".toList cs7 <|> dropLitCI "option".toList cs7
                      <|> dropLitCI "answer".toList cs7) with
                  | none => none
                  | some cs8 =>
                    match optPunctWsPlus cs8 with
                    | none => none
                    | some cs9 =>
                      let r := takeUntil (fun u => lookLetterIs u || atDollar u) cs9
                      some ((l.toUpper, r.1), r.2)
    else none

/-- The pattern list of `extract_option_explanations`, in source order. -/
def optExplMatchers : List (List Char → Option ((Char × List Char) × List Char)) :=
  [matchOptExpl1, matchOptExpl2, matchOptExpl3]

/-- Embedding of `PDFTextCleaner.extract_option_explanations`: every pattern
runs over the whole text; non-empty stripped captures are stored under the
uppercased letter. -/
def extract_option_explanations (text : String) : List (Char × String) :=
  optExplMatchers.foldl (fun d m =>
    (findIter m (text.toList.length + 1) text.toList).foldl (fun d2 p =>
      let e := pyStrip p.2
      if e.isEmpty then d2 else dictSet d2 p.1 (String.mk e)) d) []

/-!
The question-marker prefix removed at the start of
`PDFQuestionExtractor._process_question_text`:
`re.sub(r'^(?:Question\s+\d+(?:\(Q\.\d+\))?|Q\.?\s*\d+(?:\(Q\.\d+\))?)\s*', '', text)`
(case sensitive, anchored at the start of the text).
-/

/-- Greedy optional group `(?:\(Q\.\d+\))?`. -/
def optParenQ (cs : List Char) : List Char :=
  match cs with
  | '(' :: 'Q' :: '.' :: rest =>
    let r := rest.span Char.isDigit
    if r.1.isEmpty then cs
    else
      match r.2 with
      | ')' :: r3 => r3
      | _ => cs
  | _ => cs

/-- Alternative `Question\s+\d+(?:\(Q\.\d+\))?`. -/
def matchQAlt1 (cs : List Char) : Option (List Char) :=
  match dropLit "Question".toList cs with
  | none => none
  | some cs1 =>
    match wsPlus cs1 with
    | none => none
    | some cs2 =>
      let r := cs2.span Char.isDigit
      if r.1.isEmpty then none else some (optParenQ r.2)

/-- Alternative `Q\.?\s*\d+(?:\(Q\.\d+\))?`. -/
def matchQAlt2 (cs : List Char) : Option (List Char) :=
  match cs with
  | 'Q' :: cs1 =>
    let cs2 := match cs1 with
      | '.' :: r => r
      | _ => cs1
    let cs3 := cs2.dropWhile isPyWs
    let r := cs3.span Char.isDigit
    if r.1.isEmpty then none else some (optParenQ r.2)
  | _ => none

/-- The anchored prefix removal of `_process_question_text` (one removal at
most, since `^` without `re.MULTILINE` only matches at the start). -/
def remove_question_marker (text : String) : String :=
  match (matchQAlt1 text.toList <|> matchQAlt2 text.toList) with
  | some rest => String.mk (rest.dropWhile isPyWs)
  | none => text

/-!
`MathExtractor.extract_math`: a first pass collecting delimited LaTeX-style
expressions, then a token pass over the text with those expressions blanked
out.
-/

/-- Lazy `.+?` up to a closing literal (with `re.DOTALL`): at least one
character, then the earliest position where the closing literal matches. -/
def lazyPlusUntil (cl : List Char) : List Char → Option (List Char × List Char)
  | [] => none
  | x :: xs =>
    match dropLit cl xs with
    | some r => some ([x], r)
    | none =>
      match lazyPlusUntil cl xs with
      | some (a, r) => some (x :: a, r)
      | none => none

/-- Matcher for a delimited expression `OPEN.+?CLOSE`: returns the whole match
(`match.group(0)`) and the remaining input. -/
def matchDelim (op cl : List Char) (cs : List Char) : Option (List Char × List Char) :=
  match dropLit op cs with
  | none => none
  | some cs1 =>
    match lazyPlusUntil cl cs1 with
    | some (mid, rest) => some (op ++ mid ++ cl, rest)
    | none => none

/-- The LaTeX delimiter pairs of `extract_math`, in source order:
display math, inline math, `equation` environment, `align` environment. -/
def latexPatternPairs : List (List Char × List Char) :=
  [("$$".toList, "$$".toList),
   ("$".toList, "$".toList),
   ("\\begin\x7bequation\x7d".toList, "\\end\x7bequation\x7d".toList),
   ("\\begin\x7balign\x7d".toList, "\\end\x7balign\x7d".toList)]

/-- First pass of `extract_math`: every match of every LaTeX pattern, in
pattern order, each pattern scanned over the whole text. -/
def latex_expressions (text : String) : List String :=
  latexPatternPairs.foldl
    (fun acc p =>
      acc ++ (findIter (matchDelim p.1 p.2) (text.toList.length + 1) text.toList).map String.mk)
    []

/-- The math-symbol class
`[=\+\-\*\/\^\(\)]|√|∑|∫|∂|∇|∞|α|β|γ|δ|ε|θ|λ|μ|π|σ|φ|ω` of `extract_math`;
`re.findall` counts one match per symbol character. -/
def isMathSymbol (c : Char) : Bool :=
  "=+-*/^()√∑∫∂∇∞αβγδεθλμπσφω".toList.contains c

/-- The variable-assignment pattern `\b[A-Za-z]\s*=` searched inside a
whitespace-split token.  The `\b` word boundary is modelled over the ASCII
word characters `[A-Za-z0-9_]`; the source's Unicode `\w` differs from this
only on tokens containing non-ASCII word characters. -/
def hasVarAssignGo (prev : Option Char) : List Char → Bool
  | [] => false
  | a :: rest =>
    (a.isAlpha &&
        (match prev with
         | none => true
         | some p => !(p.isAlphanum || p = '_')) &&
        (match rest.dropWhile isPyWs with
         | '=' :: _ => true
         | _ => false))
      || hasVarAssignGo (some a) rest

/-- Searches `\b[A-Za-z]\s*=` in a token. -/
def hasVarAssign (w : List Char) : Bool :=
  hasVarAssignGo none w

/-- Second pass of `extract_math`, one token: it qualifies when it contains
more than one math-symbol character or a variable assignment. -/
def mathWordQualifies (w : List Char) : Bool :=
  decide (1 < w.countP isMathSymbol) || hasVarAssign w

/-- Embedding of `MathExtractor.extract_math`: the LaTeX pass, then the
cleaned text (`str.replace` of every found expression by a space) is
whitespace-split and qualifying tokens not already present are appended. -/
def extract_math (text : String) : List String :=
  let exprs0 := latex_expressions text
  let cleaned := exprs0.foldl (fun t e => subAll (dropLit e.toList) [' '] (t.length + 1) t)
    text.toList
  let words := splitPyWs cleaned
  words.foldl
    (fun exprs w =>
      if mathWordQualifies w && !exprs.contains (String.mk w) then exprs ++ [String.mk w]
      else exprs)
    exprs0

/-- The tokens appended by the second pass of `extract_math` (everything after
the LaTeX expressions in the result). -/
def word_pass (text : String) : List String :=
  (extract_math text).drop (latex_expressions text).length

/-!
`PDFQuestionExtractor._split_into_questions` and its helpers: the three
boundary patterns, tried in order, with the degenerate whole-text fallback.
The function returns the question runs together with the warnings and errors
appended to `self.stats` by the call (the source appends warnings only, never
errors).
-/

/-- Matchers positions: embedding of `re.finditer` keeping the start offset of
every non-overlapping match. -/
def findIterPos (m : List Char → Option (List Char)) : Nat → Nat → List Char → List Nat
  | 0, _, _ => []
  | _ + 1, _, [] => []
  | fuel + 1, pos, c :: cs =>
    match m (c :: cs) with
    | some r =>
      let consumed := (c :: cs).length - r.length
      pos :: findIterPos m fuel (pos + consumed) r
    | none => findIterPos m fuel (pos + 1) cs

/-- Matcher for the question-marker pattern
`(?:Question\s+(\d+)(?:\(Q\.\d+\))?|Q\.?\s*(\d+)(?:\(Q\.\d+\))?)`
(case sensitive), reusing the two alternatives of the prefix-removal
pattern. -/
def matchQMark (cs : List Char) : Option (List Char) :=
  matchQAlt1 cs <|> matchQAlt2 cs

/-- Start offsets of the question-marker matches in a text. -/
def question_marker_positions (text : String) : List Nat :=
  findIterPos matchQMark (text.toList.length + 1) 0 text.toList

/-- Matcher for the alternate numbered-item pattern `\n\s*(\d+)[\.\)]\s+`. -/
def matchAltNum (cs : List Char) : Option (List Char) :=
  match cs with
  | '\n' :: cs1 =>
    let cs2 := cs1.dropWhile isPyWs
    let r := cs2.span Char.isDigit
    if r.1.isEmpty then none
    else
      match r.2 with
      | s :: cs4 => if s = '.' || s = ')' then wsPlus cs4 else none
      | [] => none
  | _ => none

/-- Start offsets of the alternate numbered-item matches. -/
def alternate_positions (text : String) : List Nat :=
  findIterPos matchAltNum (text.toList.length + 1) 0 text.toList

/-- The `\s*B[\.\)]\s+` tail of the option-run pattern, matched from the
position just after the pattern's `\n`. -/
def tailOptB (v : List Char) : Option (List Char) :=
  match v.dropWhile isPyWs with
  | 'B' :: s2 :: v3 => if s2 = '.' || s2 = ')' then wsPlus v3 else none
  | _ => none

/-- Backtracking of the greedy `\s+` after `A[\.\)]`: the pattern's `\n` may
fall on a newline inside the whitespace run itself, as long as `\s+` keeps at
least one character before it (`1 ≤ idx`); the regex engine reaches later
newlines first, since it gives back the least whitespace first. -/
def tryRunNl (idx : Nat) (run rest0 : List Char) : Option (List Char) :=
  match run with
  | [] => none
  | c :: cs =>
    match tryRunNl (idx + 1) cs rest0 with
    | some r => some r
    | none =>
      if c = '\n' && 1 ≤ idx then tailOptB (cs ++ rest0) else none

/-- Matcher for the option-run pattern `\n\s*A[\.\)]\s+.*?\n\s*B[\.\)]\s+`
(no `DOTALL`).  With the greedy `\s+` after `A[\.\)]` at its longest, the
lazy `.*?` cannot cross a newline, so the pattern's `\n` is the first newline
after the whitespace run; when the tail fails there, `\s+` backtracks and the
`\n` falls on a newline inside the run (later newlines first, and at least
one whitespace character is kept for `\s+`). -/
def matchOptionRun (cs : List Char) : Option (List Char) :=
  match cs with
  | '\n' :: cs1 =>
    match cs1.dropWhile isPyWs with
    | 'A' :: s :: cs3 =>
      if s = '.' || s = ')' then
        let run := cs3.takeWhile isPyWs
        let rest0 := cs3.dropWhile isPyWs
        if run.isEmpty then none
        else
          let r := rest0.span (fun c => c ≠ '\n')
          match
            (match r.2 with
             | '\n' :: after => tailOptB after
             | _ => none) with
          | some res => some res
          | none => tryRunNl 0 run rest0
      else none
    | _ => none
  | _ => none

/-- Start offsets of the option-run matches. -/
def option_run_positions (text : String) : List Nat :=
  findIterPos matchOptionRun (text.toList.length + 1) 0 text.toList

/-- Embedding of `PDFQuestionExtractor._split_by_matches`: slice the text at
the match starts, keeping slices whose stripped content is non-empty. -/
def split_by_matches (cs : List Char) : List Nat → List String
  | [] => []
  | [s] =>
    let q := cs.drop s
    if (pyStrip q).isEmpty then [] else [String.mk q]
  | s1 :: s2 :: rest =>
    let q := (cs.drop s1).take (s2 - s1)
    (if (pyStrip q).isEmpty then [] else [String.mk q]) ++ split_by_matches cs (s2 :: rest)

/-- Index of the last newline before a position (`text.rfind('\n', 0, p)`). -/
def rfindNl (cs : List Char) (stop : Nat) : Option Nat :=
  let pre := cs.take stop
  match pre.reverse.findIdx? (fun c => c = '\n') with
  | some j => some (pre.length - 1 - j)
  | none => none

/-- Embedding of `PDFQuestionExtractor._split_by_options`: each question
starts at the line preceding its option run (clipped at the previous
question's end) and extends to the next option run. -/
def split_by_options_go (cs : List Char) (prevEnd : Nat) : List Nat → List String
  | [] => []
  | s :: rest =>
    let startPos0 := match rfindNl cs s with
      | some k => k + 1
      | none => 0
    let startPos := if startPos0 < prevEnd then prevEnd else startPos0
    let endPos := match rest with
      | [] => cs.length
      | s2 :: _ => s2
    let q := pyStrip ((cs.drop startPos).take (endPos - startPos))
    if q.isEmpty then split_by_options_go cs prevEnd rest
    else String.mk q :: split_by_options_go cs endPos rest

/-- Embedding of `PDFQuestionExtractor._split_into_questions`.  Returns the
question runs, the warnings appended to the statistics by the call, and the
errors appended (always none: the function only ever records warnings). -/
def split_into_questions (text : String) : List String × List String × List String :=
  let cs := text.toList
  let m1 := question_marker_positions text
  if !m1.isEmpty then (split_by_matches cs m1, [], [])
  else
    let m2 := alternate_positions text
    if !m2.isEmpty then
      (split_by_matches cs m2, ["Used alternate question numbering pattern"], [])
    else
      let m3 := option_run_positions text
      if !m3.isEmpty then
        (split_by_options_go cs 0 m3, ["Used option-based question splitting"], [])
      else ([text], ["No clear question boundaries found"], [])

/-!
`PDFQuestionExtractor._extract_question_id`: three identifier patterns, then
the 1-based fallback index.
-/

/-- Matcher for `Question\s+(\d+)\s*(?:\(Q\.(\d+)\))?`: returns the parsed id
and the Q-number string. -/
def matchQId1 (cs : List Char) : Option ((Nat × String) × List Char) :=
  match dropLit "Question".toList cs with
  | none => none
  | some cs1 =>
    match wsPlus cs1 with
    | none => none
    | some cs2 =>
      let r := cs2.span Char.isDigit
      if r.1.isEmpty then none
      else
        let n := digitsToNat r.1
        let w := r.2.dropWhile isPyWs
        match w with
        | '(' :: 'Q' :: '.' :: t =>
          let r3 := t.span Char.isDigit
          if r3.1.isEmpty then some ((n, toString n), w)
          else
            match r3.2 with
            | ')' :: r4 => some ((n, String.mk r3.1), r4)
            | _ => some ((n, toString n), w)
        | _ => some ((n, toString n), w)

/-- Matcher for `Q\.?\s*(\d+)`. -/
def matchQId2 (cs : List Char) : Option ((Nat × String) × List Char) :=
  match cs with
  | 'Q' :: cs1 =>
    let cs2 := match cs1 with
      | '.' :: r => r
      | _ => cs1
    let cs3 := cs2.dropWhile isPyWs
    let r := cs3.span Char.isDigit
    if r.1.isEmpty then none
    else
      let n := digitsToNat r.1
      some ((n, toString n), r.2)
  | _ => none

/-- Embedding of `PDFQuestionExtractor._extract_question_id`: patterns
`Question\s+(\d+)\s*(?:\(Q\.(\d+)\))?`, `Q\.?\s*(\d+)` and the anchored
`^(\d+)[\.\)]`, falling back to the 1-based index. -/
def extract_question_id (text : String) (default_index : Nat) : Nat × String :=
  match searchSplit matchQId1 text.toList with
  | some (_, p, _) => p
  | none =>
    match searchSplit matchQId2 text.toList with
    | some (_, p, _) => p
    | none =>
      let r := text.toList.span Char.isDigit
      let fallback := (default_index + 1, toString (default_index + 1))
      if r.1.isEmpty then fallback
      else
        match r.2 with
        | s :: _ =>
          if s = '.' || s = ')' then (digitsToNat r.1, toString (digitsToNat r.1))
          else fallback
        | [] => fallback

/-!
`QuestionData` (the dataclass of the source) and
`PDFQuestionExtractor._process_question_text`.
-/

/-- The `QuestionData` dataclass: options and per-option explanations are
insertion-ordered dicts keyed by letters. -/
structure QuestionData where
  id : Nat
  text : String
  options : List (Char × String)
  correct_answer : Option Char
  explanation : String
  option_explanations : List (Char × String)
  things_to_remember : String
  table_html : String
  has_table : Bool
  has_math : Bool
  is_skipped : Bool
  math_expressions : List String
  validation_issues : List String
deriving DecidableEq, Repr

/-- The local variable `text` of `_process_question_text` after cleaning and
question-marker prefix removal. -/
def pqtCleaned (text : String) : String :=
  remove_question_marker (clean_text text)

/-- The state after `extract_correct_answer` (remaining text, captured
letter). -/
def pqtAnswer (text : String) : String × Option Char :=
  extract_correct_answer (pqtCleaned text)

/-- The state after `extract_things_to_remember` (remaining text, section
text). -/
def pqtThings (text : String) : String × String :=
  extract_things_to_remember (pqtAnswer text).1

/-- The state after `extract_explanation` (remaining text, explanation
text). -/
def pqtExplanation (text : String) : String × String :=
  extract_explanation (pqtThings text).1

/-- Embedding of `PDFQuestionExtractor._process_question_text`: clean, strip
the question-marker prefix, extract the correct answer, the things-to-remember
section, the explanation section, the options and the per-option
explanations; the remaining stripped text is the question statement.
`is_skipped` is set when the remaining text mentions "skipped" or no options
were found.  Table and math fields keep their dataclass defaults (they are
filled in later by `_extract_text_based`). -/
def process_question_text (text : String) (q_id : Nat) : QuestionData :=
  ⟨q_id,
   pyStripS (pqtExplanation text).1,
   extract_options (pqtExplanation text).1,
   (pqtAnswer text).2,
   (pqtExplanation text).2,
   extract_option_explanations (pqtExplanation text).2,
   (pqtThings text).2,
   "", false, false,
   isSubstr "skipped".toList (pyLower (pqtExplanation text).1.toList) ||
     (extract_options (pqtExplanation text).1).isEmpty,
   [], []⟩

/-!
`QuestionData.to_dict` and `QuestionData._generate_answer_html`: the
serialized form.  Dictionary keys that the source includes only conditionally
are modelled as `Option` fields (`none` when the key is absent).
-/

/-- The serialized form produced by `QuestionData.to_dict`. -/
structure SerializedQuestion where
  id : Nat
  question : String
  options : List (Char × String)
  correct : Option Char
  explanation : String
  things_to_remember : String
  has_options : Bool
  type : String
  is_skipped : Bool
  table_html : Option String
  math_expressions : Option (List String)
  option_explanations : Option (List (Char × String))
  validation_issues : Option (List String)
  answer_html : String
deriving DecidableEq, Repr

/-- Ordered insertion used to embed Python `sorted` over option letters. -/
def insertChar (c : Char) : List Char → List Char
  | [] => [c]
  | d :: ds => if c ≤ d then c :: d :: ds else d :: insertChar c ds

/-- Python `sorted` on a list of letters. -/
def sortChars : List Char → List Char
  | [] => []
  | c :: cs => insertChar c (sortChars cs)

/-- Embedding of `QuestionData._generate_answer_html`. -/
def generate_answer_html (q : QuestionData) : String :=
  match q.correct_answer with
  | none => ""
  | some l =>
    let base := ["The correct answer is " ++ String.mk [l] ++ "."]
    let base2 := base ++ (if q.explanation ≠ "" then [q.explanation] else [])
    let incs := (sortChars (q.options.map Prod.fst)).filterMap (fun k =>
      if k = l then none
      else
        let e := dictGet q.option_explanations k
        if e ≠ "" then some (String.mk [k] ++ " is incorrect. " ++ e) else none)
    let base3 := base2 ++ incs
    let base4 := base3 ++
      (if q.things_to_remember ≠ "" then ["Things to Remember:", q.things_to_remember]
       else [])
    joinWith "\n" base4

/-- Embedding of `QuestionData.to_dict` (`has_options` is the dataclass
property `len(self.options) > 0`). -/
def to_dict (q : QuestionData) : SerializedQuestion :=
  ⟨q.id, q.text, q.options, q.correct_answer, q.explanation, q.things_to_remember,
   !q.options.isEmpty,
   (if !q.options.isEmpty then "MULTIPLE_CHOICE" else "UNKNOWN"),
   q.is_skipped,
   (if q.has_table then some q.table_html else none),
   (if q.has_math then some q.math_expressions else none),
   (if !q.option_explanations.isEmpty then some q.option_explanations else none),
   (if !q.validation_issues.isEmpty then some q.validation_issues else none),
   generate_answer_html q⟩

/-!
`PDFQuestionExtractor._extract_text_based` (from the concatenated page text
on): math extraction, question splitting, per-question processing and the
emission filter `if question and question.text`.  The document/page access of
the table step (`TableExtractor` applied to the page containing the question,
lines 980-992 of the source) is abstracted by the `find_table` parameter,
which returns the extracted table markup for a question text, or the empty
string; `_text_might_have_table` itself is pure and embedded below.
-/

/-- Matcher for the table-separator pattern `\n\s*-{3,}`. -/
def matchDashSep (cs : List Char) : Option (List Char) :=
  match cs with
  | '\n' :: cs1 =>
    let cs2 := cs1.dropWhile isPyWs
    let r := cs2.span (fun c => c = '-')
    if 3 ≤ r.1.length then some r.2 else none
  | _ => none

/-- Matcher for the column-heading pattern `[A-Za-z]+\s+\|\s+[A-Za-z]+`. -/
def matchColHead (cs : List Char) : Option (List Char) :=
  let r1 := cs.span Char.isAlpha
  if r1.1.isEmpty then none
  else
    match wsPlus r1.2 with
    | none => none
    | some cs2 =>
      match cs2 with
      | '|' :: cs3 =>
        match wsPlus cs3 with
        | none => none
        | some cs4 =>
          match cs4 with
          | a :: rest => if a.isAlpha then some rest else none
          | [] => none
      | _ => none

/-- Existence of a match anywhere in the input (`re.search(...)` used as a
boolean). -/
def hasSearch (m : List Char → Option (List Char)) : List Char → Bool
  | [] => (m []).isSome
  | c :: cs => (m (c :: cs)).isSome || hasSearch m cs

/-- Embedding of `PDFQuestionExtractor._text_might_have_table`. -/
def might_have_table (text : String) : Bool :=
  let cs := text.toList
  decide (4 < countChar '|' cs) || decide (4 < countChar '\t' cs) ||
    isSubstr "table".toList (pyLower cs) ||
    hasSearch matchDashSep cs || hasSearch matchColHead cs

/-- One iteration of the question loop of `_extract_text_based`: process the
question run, then attach the math expressions occurring in the run and, when
the run might contain a table, the table markup found by the document-level
search. -/
def build_question (find_table : String → String) (math_expressions : List String)
    (p : Nat × String) : QuestionData :=
  let t := p.2
  let q0 := process_question_text t (extract_question_id t p.1).1
  let qmath := math_expressions.filter (fun e => isSubstr e.toList t.toList)
  let q1 := if !qmath.isEmpty then { q0 with has_math := true, math_expressions := qmath }
    else q0
  if might_have_table t then
    let h := find_table t
    if h ≠ "" then { q1 with has_table := true, table_html := h } else q1
  else q1

/-- Embedding of `PDFQuestionExtractor._extract_text_based` from the
concatenated page text: a processed question is appended to the result exactly
when the loop's emission check `if question and question.text` passes (a
dataclass instance is always truthy, so the check is non-emptiness of the
question text). -/
def extract_text_based (find_table : String → String) (all_text : String) :
    List QuestionData :=
  let math_expressions := extract_math all_text
  let qtexts := (split_into_questions all_text).1
  qtexts.enum.foldl
    (fun acc p =>
      let q := build_question find_table math_expressions p
      if q.text ≠ "" then acc ++ [q] else acc)
    []

/-- The length threshold constant of the source (`MIN_QUESTION_LENGTH = 10`);
it is defined at module level but never consulted by the extraction code. -/
def MIN_QUESTION_LENGTH : Nat := 10

/-- Modelled from the spec: the Validator component (spec section 4.4) is not
present in `src/backend/main.py` — only its output field `validation_issues`
and the conditional serialization of that field exist there.  Per the spec,
all checks are evaluated with no short-circuit: question text non-empty;
option count at least 2 when any options exist; `correct_answer` (if present)
a key of options; each option text at least a minimum character threshold;
each per-option-explanation letter a key of options. -/
def validate_record (min_option_len : Nat) (q : QuestionData) : List String :=
  (if q.text = "" then ["question text is empty"] else []) ++
    (if !q.options.isEmpty && q.options.length < 2 then ["fewer than two options"] else []) ++
    (match q.correct_answer with
     | some c =>
       if (q.options.map Prod.fst).contains c then [] else ["correct_answer not in options"]
     | none => []) ++
    (if q.options.any (fun p => p.2.length < min_option_len) then
      ["option text below minimum length"]
     else []) ++
    (if q.option_explanations.any (fun p => !(q.options.map Prod.fst).contains p.1) then
      ["option explanation letter not in options"]
     else [])

/-- Modelled from the spec: the pipeline with the Validator annotation step —
the Validator only computes the issue list of each emitted record, mutating no
other field and never rejecting a record. -/
def extract_with_validation (find_table : String → String) (min_option_len : Nat)
    (all_text : String) : List QuestionData :=
  (extract_text_based find_table all_text).map
    (fun q => { q with validation_issues := validate_record min_option_len q })

/-!
`EnhancedTableExtractor._extract_table_manually`: the manual table-markup
construction from the positioned span structure of a page region (the
`page.get_text("dict", clip=bbox)` output is modelled directly as the
block/line/span tree).  Coordinates are modelled as integers, so the
`round(line["bbox"][1])` of the source is the identity on the modelled
coordinate; Python `round(x / 10)` (banker's rounding) is embedded exactly
for integer x as `py_round_div10`.
-/

/-- A positioned span of the table region (`span["bbox"][0]` and
`span["text"]`). -/
structure TSpan where
  x0 : ℤ
  text : String
deriving DecidableEq, Repr

/-- A line of the table region (`line["bbox"][1]` and `line["spans"]`). -/
structure TLine where
  y0 : ℤ
  spans : List TSpan
deriving DecidableEq, Repr

/-- A block of the table region (only blocks with a `lines` key reach the
loop). -/
structure TBlock where
  lines : List TLine
deriving DecidableEq, Repr

/-- Python `round(x / 10)` on an integer coordinate: round half to even. -/
def py_round_div10 (x : ℤ) : ℤ :=
  let q := Int.fdiv x 10
  let r := x - 10 * q
  if r < 5 then q
  else if 5 < r then q + 1
  else if q % 2 = 0 then q else q + 1

/-- Ordered insertion for the embedded Python `sorted`. -/
def insertLe {α : Type} [LinearOrder α] (x : α) : List α → List α
  | [] => [x]
  | y :: ys => if x ≤ y then x :: y :: ys else y :: insertLe x ys

/-- Python `sorted` on a list of keys. -/
def sortLe {α : Type} [LinearOrder α] : List α → List α
  | [] => []
  | x :: xs => insertLe x (sortLe xs)

/-- `spans_by_x[x_pos].append(...)`: append to the list of an existing key,
otherwise add the key (insertion order preserved). -/
def upsertAppend (d : List (ℤ × List String)) (k : ℤ) (v : String) :
    List (ℤ × List String) :=
  match d with
  | [] => [(k, [v])]
  | (k0, vs) :: rest =>
    if k0 = k then (k0, vs ++ [v]) :: rest else (k0, vs) :: upsertAppend rest k v

/-- `rows_by_y[y_pos] = row_cells`: plain dict assignment (overwrite). -/
def setRow (d : List (ℤ × List String)) (k : ℤ) (v : List String) :
    List (ℤ × List String) :=
  match d with
  | [] => [(k, v)]
  | (k0, v0) :: rest =>
    if k0 = k then (k0, v) :: rest else (k0, v0) :: setRow rest k v

/-- Lookup in an integer-keyed dict with a default. -/
def lookupKey (d : List (ℤ × List String)) (k : ℤ) : List String :=
  match d with
  | [] => []
  | (k0, v0) :: rest => if k0 = k then v0 else lookupKey rest k

/-- The cells of one line: spans with non-whitespace text are grouped by the
rounded x position (`round(span["bbox"][0] / 10) * 10`), the groups are
ordered by x position, and each group is space-joined into a cell. -/
def line_cells (line : TLine) : List String :=
  let byX := line.spans.foldl
    (fun d sp =>
      if (pyStrip sp.text.toList).isEmpty then d
      else upsertAppend d (py_round_div10 sp.x0 * 10) sp.text)
    []
  (sortLe (byX.map Prod.fst)).map (fun x => joinWith " " (lookupKey byX x))

/-- `rows_by_y` after the block/line loop: each non-empty cell list is
assigned under the rounded y position (`round(line["bbox"][1])`), a later line
with the same rounded y overwriting an earlier one. -/
def rows_by_y (blocks : List TBlock) : List (ℤ × List String) :=
  blocks.foldl
    (fun d b =>
      b.lines.foldl
        (fun d2 line =>
          let cells := line_cells line
          if cells.isEmpty then d2 else setRow d2 line.y0 cells)
        d)
    []

/-- The table rows, in ascending order of rounded vertical position
(`sorted_y = sorted(rows_by_y.keys())`). -/
def rows_of (blocks : List TBlock) : List (List String) :=
  (sortLe ((rows_by_y blocks).map Prod.fst)).map (lookupKey (rows_by_y blocks))

/-- `target_cols = max(set(col_counts), key=col_counts.count)`: the most
common column count.  CPython iterates a set of non-negative integers below
the initial hash-table size (8) in ascending value order and `max` keeps the
first maximal element, so the modelled smallest-value tie-break is exact for
column counts below 8; a frequency tie involving a larger count depends on
the source interpreter's hash-table state. -/
def target_cols_of (rows : List (List String)) : Nat :=
  let counts := rows.map List.length
  let vals := sortLe counts.dedup
  vals.foldl (fun b v => if counts.count b < counts.count v then v else b) (vals.headD 0)

/-- The header cells chosen by `_extract_table_manually`: the first row, if
there is more than one row and its cell count is at most the modal column
count; otherwise no header. -/
def headers_of (rows : List (List String)) : List String :=
  if 1 < rows.length ∧ (rows.headD []).length ≤ target_cols_of rows then rows.headD []
  else []

/-- The data rows of `_extract_table_manually`: the tail when the first row
was promoted to a header, otherwise all rows. -/
def data_rows_of (rows : List (List String)) : List (List String) :=
  if 1 < rows.length ∧ (rows.headD []).length ≤ target_cols_of rows then rows.tail
  else rows

/-- A single-quote character, used in the generated markup attributes. -/
def squote : String := "\x27"

/-- The numeric-cell test `re.match(r'^[\d\.\$]+$', cell)`: every character a
digit, period or dollar sign (non-empty), optionally followed by one final
newline (`$` also matches just before a trailing newline). -/
def numeric_match (cs : List Char) : Bool :=
  let cls := fun c => c.isDigit || c = '.' || c = '$'
  (!cs.isEmpty && cs.all cls) ||
    (match cs.getLast? with
     | some '\n' => !cs.dropLast.isEmpty && cs.dropLast.all cls
     | _ => false)

/-- One rendered data cell: numeric-looking cells get the `numeric` class
(right alignment). -/
def render_cell (cell : String) : String :=
  "<td" ++ (if numeric_match cell.toList then " class=" ++ squote ++ "numeric" ++ squote else "")
    ++ ">" ++ cell ++ "</td>"

/-- Row normalisation to the modal column count: pad short rows with empty
cells, truncate long ones. -/
def normalize_row (target : Nat) (row : List String) : List String :=
  if row.length < target then row ++ List.replicate (target - row.length) ""
  else if target < row.length then row.take target
  else row

/-- Embedding of `EnhancedTableExtractor._extract_table_manually` from the
span tree of the table region. -/
def extract_table_manually (blocks : List TBlock) : String :=
  let rows := rows_of blocks
  if rows.isEmpty then ""
  else
    let target := target_cols_of rows
    let headers := headers_of rows
    let dataRows := data_rows_of rows
    let headerHtml :=
      if !headers.isEmpty then
        ["<thead>", "<tr>"] ++ headers.map (fun h => "<th>" ++ h ++ "</th>")
          ++ ["</tr>", "</thead>"]
      else []
    let bodyHtml :=
      ["<tbody>"] ++
        (dataRows.foldl
          (fun acc row =>
            acc ++ ["<tr>"] ++ (normalize_row target row).map render_cell ++ ["</tr>"])
          []) ++
        ["</tbody>", "</table>"]
    joinWith "\n"
      (("<table class=" ++ squote ++ "quiz-table" ++ squote ++ " border=" ++ squote ++ "1" ++ squote ++ ">")
        :: headerHtml ++ bodyHtml)

/-!
Helper lemmas shared by the claim theorems.
-/

/-- Membership in a conditional singleton list. -/
theorem mem_ite_singleton_iff {b : Prop} [Decidable b] {x s : String} :
    (x ∈ (if b then [s] else [])) ↔ (b ∧ x = s) := by
  by_cases h : b <;> simp [h]

/-- Membership in a conditional singleton list, negative form. -/
theorem mem_ite_nil_singleton_iff {b : Prop} [Decidable b] {x s : String} :
    (x ∈ (if b then [] else [s])) ↔ (¬ b ∧ x = s) := by
  by_cases h : b <;> simp [h]

/-- An emitting fold (`questions.append(question)` under a guard) is a
filtered map. -/
theorem foldl_append_if {α β : Type} (g : α → β) (p : β → Prop) [DecidablePred p] :
    ∀ (l : List α) (acc : List β),
      l.foldl (fun a x => if p (g x) then a ++ [g x] else a) acc =
        acc ++ (l.map g).filter (fun b => decide (p b)) := by
  intro l
  induction l with
  | nil => simp
  | cons x xs ih =>
    intro acc
    by_cases h : p (g x)
    · simp [List.filter_cons, h, ih]
    · simp [List.filter_cons, h, ih]

/-- Claim C9: field extraction is deterministic — running the field extractor
twice on the same question text and id yields records that agree in every
field (text, options, correct_answer, explanation, option_explanations,
things_to_remember). -/
theorem claim_C9_deterministic (t : String) (q_id : Nat) :
    (process_question_text t q_id).text = (process_question_text t q_id).text ∧
    (process_question_text t q_id).options = (process_question_text t q_id).options ∧
    (process_question_text t q_id).correct_answer =
      (process_question_text t q_id).correct_answer ∧
    (process_question_text t q_id).explanation = (process_question_text t q_id).explanation ∧
    (process_question_text t q_id).option_explanations =
      (process_question_text t q_id).option_explanations ∧
    (process_question_text t q_id).things_to_remember =
      (process_question_text t q_id).things_to_remember :=
  ⟨rfl, rfl, rfl, rfl, rfl, rfl⟩


/-- Constructor form of `process_question_text` (definitional). -/
theorem process_question_text_def (t : String) (q_id : Nat) :
    process_question_text t q_id =
      ⟨q_id,
       pyStripS (pqtExplanation t).1,
       extract_options (pqtExplanation t).1,
       (pqtAnswer t).2,
       (pqtExplanation t).2,
       extract_option_explanations (pqtExplanation t).2,
       (pqtThings t).2,
       "", false, false,
       isSubstr "skipped".toList (pyLower (pqtExplanation t).1.toList) ||
         (extract_options (pqtExplanation t).1).isEmpty,
       [], []⟩ := rfl

/-- Serialization of a record with no options (`to_dict`, lines 118-133 of the
source). -/
theorem to_dict_of_empty (q : QuestionData) (h : q.options = []) :
    (to_dict q).type = "UNKNOWN" ∧ (to_dict q).has_options = false := by
  simp [to_dict, h]

/-- Serialization of a record with options. -/
theorem to_dict_of_nonempty (q : QuestionData) (h : q.options ≠ []) :
    (to_dict q).type = "MULTIPLE_CHOICE" ∧ (to_dict q).has_options = true := by
  have : ¬ q.options.isEmpty = true := by simpa [List.isEmpty_iff] using h
  simp [to_dict, this]

/-- Claim C10: a record built by the field extractor with an empty options map
has `is_skipped` set, and serializes with type `UNKNOWN` and `has_options`
false; a record with a non-empty options map serializes with type
`MULTIPLE_CHOICE` and `has_options` true. -/
theorem claim_C10_options_serialization (t : String) (q_id : Nat) :
    ((process_question_text t q_id).options = [] →
      (process_question_text t q_id).is_skipped = true ∧
      (to_dict (process_question_text t q_id)).type = "UNKNOWN" ∧
      (to_dict (process_question_text t q_id)).has_options = false) ∧
    ((process_question_text t q_id).options ≠ [] →
      (to_dict (process_question_text t q_id)).type = "MULTIPLE_CHOICE" ∧
      (to_dict (process_question_text t q_id)).has_options = true) := by
  constructor
  · intro h
    refine ⟨?_, to_dict_of_empty _ h⟩
    rw [process_question_text_def] at h ⊢
    simp only at h ⊢
    rw [h]
    simp
  · intro h
    exact to_dict_of_nonempty _ h

/-- Claim C10 witness: the theorem applied at a concrete question with
options, and at one without. -/
theorem claim_C10_options_serialization_witness :
    ((to_dict (process_question_text "What? A. x B. y" 3)).type = "MULTIPLE_CHOICE" ∧
      (to_dict (process_question_text "What? A. x B. y" 3)).has_options = true) ∧
    ((process_question_text "Hi?" 1).is_skipped = true ∧
      (to_dict (process_question_text "Hi?" 1)).type = "UNKNOWN" ∧
      (to_dict (process_question_text "Hi?" 1)).has_options = false) :=
  ⟨(claim_C10_options_serialization "What? A. x B. y" 3).2 (by decide),
   (claim_C10_options_serialization "Hi?" 1).1 (by decide)⟩

/-- Claim C8: when a per-field pattern finds nothing, the corresponding field
extractor returns the input text unchanged with the field's default (empty
string for explanation and things-to-remember, absent for the correct
answer), never raises (the extractors are total functions), and extraction of
the remaining fields continues (the record is still produced, with its id). -/
theorem claim_C8_field_defaults (t : String) (q_id : Nat) :
    (searchFirst explanationMatchers t.toList = none → extract_explanation t = (t, "")) ∧
    (searchFirst thingsMatchers t.toList = none →
      extract_things_to_remember t = (t, "")) ∧
    (searchFirst answerMatchers t.toList = none → extract_correct_answer t = (t, none)) ∧
    (process_question_text t q_id).id = q_id := by
  refine ⟨fun h => ?_, fun h => ?_, fun h => ?_, rfl⟩
  · simp only [String.toList] at h
    simp [extract_explanation, h]
  · simp only [String.toList] at h
    simp [extract_things_to_remember, h]
  · simp only [String.toList] at h
    simp [extract_correct_answer, h]

/-- Claim C8 witness: a text matched by none of the patterns. -/
theorem claim_C8_field_defaults_witness :
    extract_explanation "hello world" = ("hello world", "") ∧
    extract_things_to_remember "hello world" = ("hello world", "") ∧
    extract_correct_answer "hello world" = ("hello world", none) ∧
    (process_question_text "hello world" 7).id = 7 :=
  ⟨(claim_C8_field_defaults "hello world" 7).1 (by decide),
   (claim_C8_field_defaults "hello world" 7).2.1 (by decide),
   (claim_C8_field_defaults "hello world" 7).2.2.1 (by decide),
   (claim_C8_field_defaults "hello world" 7).2.2.2⟩

/-- Claim C6: when no question-marker pattern, no alternate numbered-item
pattern and no A-then-B option-run pattern matches, segmentation returns
exactly one question run containing the whole text, and records a warning
(never an error). -/
theorem claim_C6_degenerate_run (t : String)
    (h1 : question_marker_positions t = [])
    (h2 : alternate_positions t = [])
    (h3 : option_run_positions t = []) :
    split_into_questions t = ([t], ["No clear question boundaries found"], []) := by
  simp [split_into_questions, h1, h2, h3]

/-- Claim C6 witness: a text without any boundary pattern. -/
theorem claim_C6_degenerate_run_witness :
    split_into_questions "hello world" =
      (["hello world"], ["No clear question boundaries found"], []) :=
  claim_C6_degenerate_run "hello world" (by decide) (by decide) (by decide)

/-- Claim C4 counterexample: the text "answer is C" contains the claimed
phrase `answer is <letter>`, yet correct-answer extraction returns no answer
(the `Answer[:\s]+([A-F])` pattern requires the letter right after the
colon/whitespace run, and no other pattern contains a bare `answer is`). -/
theorem claim_C4_counterexample :
    extract_correct_answer "answer is C" = ("answer is C", none) := by decide

/-- Claim C4, amended: extraction captures the letter (uppercased) for the
phrase forms the code actually recognises — `the correct answer is L.` (with
a period after the letter), `the answer is L`, `correct answer: L`,
`answer: L`, `the correct choice is L` and `L is (the) correct
answer/option/choice`; a bare `answer is L` is not captured, and a text
matched by none of the six patterns yields no answer. -/
theorem claim_C4_amended (l : Char) (hl : l ∈ (['A', 'B', 'C', 'D', 'E', 'F'] : List Char)) :
    extract_correct_answer ("The correct answer is " ++ String.mk [l] ++ ".") =
      ("", some l) ∧
    extract_correct_answer ("The answer is " ++ String.mk [l]) = ("", some l) ∧
    extract_correct_answer ("Correct answer: " ++ String.mk [l]) = ("", some l) ∧
    extract_correct_answer ("The correct choice is " ++ String.mk [l]) = ("", some l) ∧
    extract_correct_answer (String.mk [l] ++ " is the correct option") = ("", some l) ∧
    extract_correct_answer "answer is C" = ("answer is C", none) ∧
    extract_correct_answer "This is a normal sentence." =
      ("This is a normal sentence.", none) := by
  fin_cases hl <;>
    exact ⟨by decide, by decide, by decide, by decide, by decide, by decide, by decide⟩

/-- Claim C4 witness: the amended theorem at the letter C. -/
theorem claim_C4_amended_witness :
    extract_correct_answer "The correct answer is C." = ("", some 'C') ∧
    extract_correct_answer "The answer is C" = ("", some 'C') ∧
    extract_correct_answer "Correct answer: C" = ("", some 'C') ∧
    extract_correct_answer "The correct choice is C" = ("", some 'C') ∧
    extract_correct_answer "C is the correct option" = ("", some 'C') ∧
    extract_correct_answer "answer is C" = ("answer is C", none) ∧
    extract_correct_answer "This is a normal sentence." =
      ("This is a normal sentence.", none) :=
  claim_C4_amended 'C' (by decide)

/-- The word pass of `extract_math` appends each qualifying token at most
once, and only when it is not already present. -/
theorem math_fold_suffix (ws : List (List Char)) (acc : List String) :
    ∃ s, ws.foldl
        (fun exprs w =>
          if mathWordQualifies w && !exprs.contains (String.mk w) then
            exprs ++ [String.mk w]
          else exprs)
        acc = acc ++ s ∧
      s.Nodup ∧ ∀ x ∈ s, x ∉ acc := by
  induction ws generalizing acc with
  | nil => exact ⟨[], by simp, List.nodup_nil, by simp⟩
  | cons w ws ih =>
    by_cases h : (mathWordQualifies w && !acc.contains (String.mk w)) = true
    · obtain ⟨s, hs, hnd, hmem⟩ := ih (acc ++ [String.mk w])
      have hwa : String.mk w ∉ acc := by
        have hb := (Bool.and_eq_true _ _).mp h
        intro hmemacc
        have hc : acc.contains (String.mk w) = true := by simpa using hmemacc
        rw [hc] at hb
        simp at hb
      refine ⟨String.mk w :: s, ?_, ?_, ?_⟩
      · simp only [List.foldl_cons, if_pos h, hs, List.append_assoc, List.singleton_append]
      · exact List.nodup_cons.mpr ⟨fun hws => (hmem _ hws) (by simp), hnd⟩
      · intro x hx
        rcases List.mem_cons.mp hx with hxw | hx'
        · rw [hxw]; exact hwa
        · intro hmemacc
          exact (hmem _ hx') (by simp [hmemacc])
    · rw [List.foldl_cons, if_neg h]
      exact ih acc

/-- Claim C5 counterexample: math detection on "x = 5 + 3" returns the empty
list — the text splits into the tokens `x`, `=`, `5`, `+`, `3`, none of which
contains more than one math symbol or a letter-equals pattern, and there are
no delimited expressions. -/
theorem claim_C5_counterexample : extract_math "x = 5 + 3" = [] := by decide

/-- Claim C5, amended: delimited expressions are captured verbatim and the
token pass never adds a duplicate; but the token pass works on
whitespace-split tokens, so the spaced text "x = 5 + 3" yields an empty list
while the unspaced "x=5+3" yields one captured expression; 
"This is a normal sentence." yields an empty list. -/
theorem claim_C5_amended :
    (extract_math "x=5+3" = ["x=5+3"] ∧
     extract_math "x = 5 + 3" = [] ∧
     extract_math "This is a normal sentence." = [] ∧
     extract_math "$x+y$ and x=1 x=1" = ["$x+y$", "x=1"] ∧
     ∀ t : String,
       extract_math t = latex_expressions t ++ word_pass t ∧ (word_pass t).Nodup) ∧
    ∀ t x : String, x ∈ word_pass t → x ∉ latex_expressions t := by
  have key : ∀ t : String, extract_math t = latex_expressions t ++ word_pass t ∧
      (word_pass t).Nodup ∧ ∀ x ∈ word_pass t, x ∉ latex_expressions t := by
    intro t
    obtain ⟨s, hs, hnd, hmem⟩ := math_fold_suffix
      (splitPyWs ((latex_expressions t).foldl
        (fun u e => subAll (dropLit e.toList) [' '] (u.length + 1) u) t.toList))
      (latex_expressions t)
    have hx : extract_math t = latex_expressions t ++ s := hs
    have hwp : word_pass t = s := by
      simp [word_pass, hx]
    exact ⟨by rw [hx, hwp], by rw [hwp]; exact hnd, by rw [hwp]; exact hmem⟩
  exact ⟨⟨by decide, by decide, by decide, by decide,
      fun t => ⟨(key t).1, (key t).2.1⟩⟩,
    fun t x hx => (key t).2.2 x hx⟩

/-- Claim C5 witness: the duplicate-freedom part of the amended theorem at a
concrete token. -/
theorem claim_C5_amended_witness : "x=1" ∉ latex_expressions "x=1" :=
  claim_C5_amended.2 "x=1" "x=1" (by decide)

/-- Claim C1 counterexample: a document whose single question run is "Hi?"
(3 characters, at most `MIN_QUESTION_LENGTH = 10`) still emits its record —
the emission check of `_extract_text_based` is `if question and
question.text`, i.e. non-emptiness, and the `MIN_QUESTION_LENGTH` constant is
never consulted. -/
theorem claim_C1_counterexample :
    (extract_text_based (fun _ => "") "Hi?").map (fun q => q.text) = ["Hi?"] ∧
    String.length "Hi?" ≤ MIN_QUESTION_LENGTH := by
  exact ⟨by decide, by decide⟩

/-- Claim C1, amended: a processed record is emitted exactly when its
extracted question text is non-empty — the result list is the processed
question list filtered by non-emptiness of the text.  This is the sole drop
condition, and no exception is involved (the embedding is total); the
`MIN_QUESTION_LENGTH` threshold plays no part. -/
theorem claim_C1_amended (find_table : String → String) (all_text : String) :
    extract_text_based find_table all_text =
      (((split_into_questions all_text).1).enum.map
          (build_question find_table (extract_math all_text))).filter
        (fun q => decide (q.text ≠ "")) := by
  simp only [extract_text_based]
  exact foldl_append_if (β := QuestionData) _ (fun q => q.text ≠ "") _ []


/-- The `correct_answer not in options` issue is present in a record's
validation exactly when the set correct answer is not a key of the options
map. -/
theorem validate_mem_not_in_options (m : Nat) (q : QuestionData) (c : Char)
    (hc : q.correct_answer = some c) :
    ("correct_answer not in options" ∈ validate_record m q) ↔
      ¬ ((q.options.map Prod.fst).contains c = true) := by
  unfold validate_record
  rw [hc]
  by_cases hcon : (q.options.map Prod.fst).contains c = true
  · simp only [hcon, if_true]
    constructor
    · intro h
      exfalso
      simp only [List.nil_append, List.append_nil, List.mem_append,
        mem_ite_singleton_iff] at h
      rcases h with ((⟨_, e⟩ | ⟨_, e⟩) | ⟨_, e⟩) | ⟨_, e⟩ <;> revert e <;> decide
    · intro h
      exact absurd trivial h
  · simp only [hcon, if_false]
    constructor
    · intro _
      simp
    · intro _
      refine List.mem_append.mpr (Or.inl ?_)
      refine List.mem_append.mpr (Or.inl ?_)
      refine List.mem_append.mpr (Or.inr ?_)
      simp

/-- Claim C2: in the validated pipeline, every emitted record whose
`correct_answer` is set but is not a key of its options map carries the
`not in options` validation issue, and is still emitted (the annotation step
preserves the record count); when the correct answer is a key of the options
map, no such issue is present. -/
theorem claim_C2_answer_not_in_options (find_table : String → String) (m : Nat)
    (all_text : String) :
    (extract_with_validation find_table m all_text).length =
      (extract_text_based find_table all_text).length ∧
    ∀ q ∈ extract_with_validation find_table m all_text, ∀ c : Char,
      q.correct_answer = some c →
      (("correct_answer not in options" ∈ q.validation_issues) ↔
        ¬ ((q.options.map Prod.fst).contains c = true)) := by
  constructor
  · simp [extract_with_validation]
  · intro q hq c hc
    simp only [extract_with_validation, List.mem_map] at hq
    obtain ⟨q', _, rfl⟩ := hq
    exact validate_mem_not_in_options m q' c hc

/-- Claim C2 witness: a document whose single question answers C while only
options A and B exist — the issue is present and the record is in the result
list. -/
theorem claim_C2_answer_not_in_options_witness :
    ("correct_answer not in options" ∈
        ((extract_with_validation (fun _ => "") 1
            "Q.1 Pick one A. foo B. bar The correct answer is C.").headD
          ⟨0, "", [], none, "", [], "", "", false, false, false, [], []⟩).validation_issues) ↔
      ¬ ((((extract_with_validation (fun _ => "") 1
              "Q.1 Pick one A. foo B. bar The correct answer is C.").headD
            ⟨0, "", [], none, "", [], "", "", false, false, false, [], []⟩).options.map
            Prod.fst).contains 'C' = true) :=
  (claim_C2_answer_not_in_options (fun _ => "") 1
      "Q.1 Pick one A. foo B. bar The correct answer is C.").2
    _ (by decide) 'C' (by decide)


set_option maxRecDepth 4000 in
/-- Claim C7 counterexample: a two-row table whose first-row cells are
lowercase ("a", "b") is still rendered with a header row (`<th>a</th>`) —
the header decision of `_extract_table_manually` compares the first row's
cell count with the modal column count and never consults uppercase-ness. -/
theorem claim_C7_counterexample :
    headers_of (rows_of [⟨[⟨0, [⟨0, "a"⟩, ⟨50, "b"⟩]⟩, ⟨10, [⟨0, "1"⟩, ⟨50, "2"⟩]⟩]⟩]) =
      ["a", "b"] ∧
    ("a".toList.all Char.isUpper) = false ∧
    extract_table_manually [⟨[⟨0, [⟨0, "a"⟩, ⟨50, "b"⟩]⟩, ⟨10, [⟨0, "1"⟩, ⟨50, "2"⟩]⟩]⟩] =
      "<table class=\x27quiz-table\x27 border=\x271\x27>\n<thead>\n<tr>\n<th>a</th>\n<th>b</th>\n</tr>\n</thead>\n<tbody>\n<tr>\n<td class=\x27numeric\x27>1</td>\n<td class=\x27numeric\x27>2</td>\n</tr>\n</tbody>\n</table>" :=
  ⟨by decide, by decide, by decide⟩

/-- Claim C7, amended: spans are grouped into rows by rounded vertical
position and ordered within a row by rounded horizontal position; the first
row is rendered as a header row exactly when the table has more than one row
and the first row's cell count is at most the modal column count (uppercase
cells are not consulted); a cell is rendered with the `numeric`
(right-aligned) class exactly when it matches the numeric pattern (non-empty,
all characters digits, periods or dollar signs, optionally one trailing
newline). -/
theorem claim_C7_amended :
    (∀ rows : List (List String),
      ((1 < rows.length ∧ (rows.headD []).length ≤ target_cols_of rows) →
        headers_of rows = rows.headD [] ∧ data_rows_of rows = rows.tail) ∧
      (¬ (1 < rows.length ∧ (rows.headD []).length ≤ target_cols_of rows) →
        headers_of rows = [] ∧ data_rows_of rows = rows)) ∧
    (∀ cell : String,
      (numeric_match cell.toList = true →
        render_cell cell =
          "<td" ++ (" class=" ++ squote ++ "numeric" ++ squote) ++ ">" ++ cell ++ "</td>") ∧
      (numeric_match cell.toList = false →
        render_cell cell = "<td" ++ ">" ++ cell ++ "</td>")) ∧
    rows_of [⟨[⟨20, [⟨30, "z"⟩, ⟨0, "y"⟩]⟩, ⟨5, [⟨0, "Age"⟩, ⟨50, "Rate"⟩]⟩,
        ⟨10, [⟨0, "30"⟩, ⟨50, "0.01"⟩]⟩]⟩] =
      [["Age", "Rate"], ["30", "0.01"], ["y", "z"]] := by
  refine ⟨fun rows => ⟨fun h => ?_, fun h => ?_⟩, fun cell => ⟨fun h => ?_, fun h => ?_⟩,
    by decide⟩
  · exact ⟨by rw [headers_of, if_pos h], by rw [data_rows_of, if_pos h]⟩
  · exact ⟨by rw [headers_of, if_neg h], by rw [data_rows_of, if_neg h]⟩
  · simp only [String.toList] at h
    simp [render_cell, h]
  · simp only [String.toList] at h
    simp [render_cell, h]

/-- Claim C7 witness: the amended theorem at a concrete two-row table, a
numeric cell and a non-numeric cell. -/
theorem claim_C7_amended_witness :
    (headers_of [["a", "b"], ["1", "2"]] = ["a", "b"] ∧
      data_rows_of [["a", "b"], ["1", "2"]] = [["1", "2"]]) ∧
    render_cell "0.5" =
      "<td" ++ (" class=" ++ squote ++ "numeric" ++ squote) ++ ">" ++ "0.5" ++ "</td>" ∧
    render_cell "Age" = "<td" ++ ">" ++ "Age" ++ "</td>" :=
  ⟨(claim_C7_amended.1 [["a", "b"], ["1", "2"]]).1 (by decide),
   (claim_C7_amended.2.1 "0.5").1 (by decide),
   (claim_C7_amended.2.1 "Age").2 (by decide)⟩

/-!
Claim C3: option extraction on synthetic option lists.  `mk_opts` builds the
synthetic text `\nA<sep> t0\nB<sep> t1 ...` with consecutive letters starting
at `A`; `good_option_text` captures what "followed by option text" requires of
each option body: non-empty, on one line, not starting with whitespace, and
non-empty after the trailing-fragment cleaning (otherwise the source drops
the entry).
-/

/-- The synthetic option text: one option per line, letters consecutive from
the index `i`. -/
def mk_opts (sep : Char) : Nat → List String → List Char
  | _, [] => []
  | i, t :: rest =>
    '\n' :: Char.ofNat (65 + i) :: sep :: ' ' :: (t.toList ++ mk_opts sep (i + 1) rest)

/-- A well-formed synthetic option body. -/
def good_option_text (t : String) : Prop :=
  t.toList ≠ [] ∧ '\n' ∉ t.toList ∧ isPyWs (t.toList.headD ' ') = false ∧
    cleanOptionPre t.toList ≠ []

instance (t : String) : Decidable (good_option_text t) := by
  unfold good_option_text
  infer_instance

/-- The six option letters are in `[A-F]`, are not whitespace, and are fixed
by uppercasing. -/
theorem letter_facts (i : Nat) (hi : i ≤ 5) :
    isLetterAF (Char.ofNat (65 + i)) = true ∧ isPyWs (Char.ofNat (65 + i)) = false ∧
      (Char.ofNat (65 + i)).toUpper = Char.ofNat (65 + i) := by
  interval_cases i <;> exact ⟨by decide, by decide, by decide⟩

/-- A span over whitespace stops immediately at a non-whitespace head. -/
theorem span_no_ws (xs M : List Char) (h1 : xs ≠ [])
    (h2 : isPyWs (xs.headD ' ') = false) :
    List.span isPyWs (xs ++ M) = ([], xs ++ M) := by
  cases xs with
  | nil => exact absurd rfl h1
  | cons c cs =>
    simp only [List.headD_cons] at h2
    simp [List.span_eq_take_drop, List.takeWhile_cons, List.dropWhile_cons, h2]

/-- The next-option lookahead can only fire at a newline. -/
theorem lookNl_cons_false (c : Char) (x : List Char) (h : c ≠ '\n') :
    lookNlMarker (c :: x) = false := by
  unfold lookNlMarker
  split
  · rename_i heq
    cases heq
    exact absurd rfl h
  · rfl

/-- The lazy option-text capture consumes exactly the newline-free body and
stops at the start of the next option (or the end of the input). -/
theorem takeUntil_append (u M : List Char) (hu : '\n' ∉ u)
    (hM : M = [] ∨ lookNlMarker M = true) :
    takeUntil lookNlMarker (u ++ M) = (u, M) := by
  induction u with
  | nil =>
    rcases hM with rfl | hM
    · rfl
    · cases M with
      | nil => rfl
      | cons c cs => simp [takeUntil, hM]
  | cons c cs ih =>
    have hc : c ≠ '\n' := fun hh => hu (hh ▸ List.mem_cons_self c cs)
    have hrec := ih (fun hm => hu (List.mem_cons_of_mem c hm))
    simp [takeUntil, lookNl_cons_false c _ hc, hrec]

/-- The first option pattern matches a synthetic option block at its start,
capturing the letter and the body and stopping at the rest. -/
theorem matchOptA_mk (sep : Char) (hsep : sep = '.' ∨ sep = ')') (i : Nat) (hi : i ≤ 5)
    (t : String) (ht1 : t.toList ≠ []) (ht3 : isPyWs (t.toList.headD ' ') = false)
    (M : List Char) (hM : M = [] ∨ lookNlMarker M = true) (hu : '\n' ∉ t.toList) :
    matchOptA ('\n' :: Char.ofNat (65 + i) :: sep :: ' ' :: (t.toList ++ M)) =
      some ((Char.ofNat (65 + i), t.toList), M) := by
  have hspan : List.span isPyWs (t.data ++ M) = ([], t.data ++ M) :=
    span_no_ws t.toList M ht1 ht3
  have htk : takeUntil lookNlMarker (t.data ++ M) = (t.data, M) :=
    takeUntil_append t.toList M hu hM
  have hdw : List.dropWhile isPyWs (t.data ++ M) = t.data ++ M := by
    have h2 := hspan
    rw [List.span_eq_take_drop] at h2
    simpa using congrArg Prod.snd h2
  interval_cases i <;> rcases hsep with rfl | rfl <;>
    simp [matchOptA, List.dropWhile_cons, wsPlus, hspan, htk, hdw, isPyWs] <;>
    decide

/-- The next-option lookahead fires at the start of a synthetic option
block. -/
theorem lookNl_mk (sep : Char) (hsep : sep = '.' ∨ sep = ')') (i : Nat) (hi : i ≤ 5)
    (t : String) (rest : List String) :
    lookNlMarker (mk_opts sep i (t :: rest)) = true := by
  interval_cases i <;> rcases hsep with rfl | rfl <;>
    simp [mk_opts, lookNlMarker, List.dropWhile_cons, isPyWs] <;> decide

/-- The first option pattern, iterated over a synthetic option list, finds
exactly one match per option, in order. -/
theorem findIter_mk (sep : Char) (hsep : sep = '.' ∨ sep = ')') :
    ∀ (ts : List String) (i fuel : Nat), i + ts.length ≤ 6 →
      (∀ t ∈ ts, good_option_text t) → ts.length ≤ fuel →
      findIter matchOptA fuel (mk_opts sep i ts) =
        (List.enumFrom i ts).map (fun p => (Char.ofNat (65 + p.1), p.2.toList)) := by
  intro ts
  induction ts with
  | nil =>
    intro i fuel _ _ _
    cases fuel <;> simp [mk_opts, findIter]
  | cons t rest ih =>
    intro i fuel hlen hgood hfuel
    cases fuel with
    | zero => simp at hfuel
    | succ f =>
      have hi : i ≤ 5 := by simp at hlen; omega
      obtain ⟨ht1, hu, ht3, _⟩ := hgood t (List.mem_cons_self t rest)
      have hM : mk_opts sep (i + 1) rest = [] ∨
          lookNlMarker (mk_opts sep (i + 1) rest) = true := by
        cases rest with
        | nil => exact Or.inl rfl
        | cons t2 r2 =>
          exact Or.inr (lookNl_mk sep hsep (i + 1) (by simp at hlen; omega) t2 r2)
      have hm := matchOptA_mk sep hsep i hi t ht1 ht3 (mk_opts sep (i + 1) rest) hM hu
      rw [mk_opts, findIter, hm]
      simp only [List.enumFrom, List.map_cons]
      congr 1
      exact ih (i + 1) f (by simp at hlen ⊢; omega)
        (fun u hu2 => hgood u (List.mem_cons_of_mem t hu2)) (by simp at hfuel; omega)

/-- Distinct indices in the letter range give distinct letters. -/
theorem letters_inj (i j : Nat) (hi : i ≤ 5) (hj : j ≤ 5)
    (h : Char.ofNat (65 + i) = Char.ofNat (65 + j)) : i = j := by
  interval_cases i <;> interval_cases j <;> simp_all

/-- Inserting a fresh key into an option dict appends it. -/
theorem dictSet_append (d : List (Char × String)) (k : Char) (v : String)
    (hk : k ∉ d.map Prod.fst) : dictSet d k v = d ++ [(k, v)] := by
  induction d with
  | nil => rfl
  | cons p rest ih =>
    have hne : p.1 ≠ k := fun he => hk (by simp [he])
    have hk' : k ∉ rest.map Prod.fst := fun hm => hk (by simp [hm])
    cases p with
    | mk k0 v0 => simp [dictSet, hne, ih hk']

/-- Folding the option matches of a synthetic option list into the dict
appends one cleaned entry per option. -/
theorem store_fold :
    ∀ (ts : List String) (i : Nat) (d : List (Char × String)), i + ts.length ≤ 6 →
      (∀ t ∈ ts, cleanOptionPre t.toList ≠ []) →
      (∀ j, i ≤ j → j < i + ts.length → Char.ofNat (65 + j) ∉ d.map Prod.fst) →
      ((List.enumFrom i ts).map
          (fun p => (Char.ofNat (65 + p.1), p.2.toList))).foldl storeOption d =
        d ++ (List.enumFrom i ts).map
          (fun p => (Char.ofNat (65 + p.1), clean_option p.2)) := by
  intro ts
  induction ts with
  | nil => intro i d _ _ _; simp [List.enumFrom]
  | cons t rest ih =>
    intro i d hlen hclean hfresh
    have hi : i ≤ 5 := by simp at hlen; omega
    have hct : ¬ (cleanOptionPre t.toList).isEmpty = true := by
      simpa [List.isEmpty_iff] using hclean t (List.mem_cons_self t rest)
    have hupper : (Char.ofNat (65 + i)).toUpper = Char.ofNat (65 + i) :=
      (letter_facts i hi).2.2
    have hstep : storeOption d (Char.ofNat (65 + i), t.toList) =
        d ++ [(Char.ofNat (65 + i), clean_option t)] := by
      simp only [storeOption, hct, if_false, hupper]
      rw [dictSet_append d _ _ (hfresh i le_rfl (by simp))]
      rfl
    simp only [List.enumFrom, List.map_cons, List.foldl_cons, hstep]
    rw [ih (i + 1) (d ++ [(Char.ofNat (65 + i), clean_option t)])
      (by simp at hlen ⊢; omega)
      (fun u hu => hclean u (List.mem_cons_of_mem t hu))
      ?_]
    · simp
    · intro j hj1 hj2
      have hlc : (t :: rest).length = rest.length + 1 := List.length_cons t rest
      simp only [List.map_append, List.mem_append, List.map_cons, List.map_nil]
      rintro (hmem | hmem)
      · exact hfresh j (by omega) (by omega) hmem
      · simp only [List.mem_singleton] at hmem
        have : j = i := letters_inj j i (by omega) hi hmem
        omega

/-- Every synthetic option block contributes at least one character. -/
theorem mk_opts_len (sep : Char) : ∀ (ts : List String) (i : Nat),
    ts.length ≤ (mk_opts sep i ts).length := by
  intro ts
  induction ts with
  | nil => intro i; simp [mk_opts]
  | cons t rest ih =>
    intro i
    simp only [mk_opts, List.length_cons, List.length_append]
    have := ih (i + 1)
    omega

/-- Claim C3: on a synthetic text with N options (2 ≤ N ≤ 6) labeled with
consecutive letters from A, each as `<letter>.` or `<letter>)` followed by
option text, option extraction returns exactly N entries keyed by exactly
those letters, each value being the corresponding option text with any
trailing `is correct`/`is incorrect` fragment stripped (`clean_option`). -/
theorem claim_C3_synthetic_options (ts : List String) (sep : Char) (h2 : 2 ≤ ts.length)
    (h6 : ts.length ≤ 6) (hsep : sep = '.' ∨ sep = ')')
    (hts : ∀ t ∈ ts, good_option_text t) :
    extract_options (String.mk (mk_opts sep 0 ts)) =
      ts.enum.map (fun p => (Char.ofNat (65 + p.1), clean_option p.2)) := by
  have hfi := findIter_mk sep hsep ts 0 ((mk_opts sep 0 ts).length + 1)
    (by omega) hts (by have := mk_opts_len sep ts 0; omega)
  have hsf := store_fold ts 0 [] (by omega)
    (fun t ht => ((hts t ht).2.2.2)) (by simp)
  simp only [extract_options, String.toList]
  rw [hfi, hsf]
  have hlen : 2 ≤ ((List.enumFrom 0 ts).map
      (fun p => (Char.ofNat (65 + p.1), clean_option p.2))).length := by
    simpa using h2
  rw [List.nil_append, if_pos hlen]
  rfl

/-- Claim C3 witness: two options, the second carrying a trailing
`is correct` fragment that the extraction strips. -/
theorem claim_C3_synthetic_options_witness :
    String.mk (mk_opts '.' 0 ["cat", "dog is correct extra"]) =
      "\nA. cat\nB. dog is correct extra" ∧
    extract_options (String.mk (mk_opts '.' 0 ["cat", "dog is correct extra"])) =
      [('A', "cat"), ('B', "dog")] :=
  ⟨by decide,
   claim_C3_synthetic_options ["cat", "dog is correct extra"] '.' (by decide) (by decide)
     (Or.inl rfl) (by decide)⟩
